import Mathlib

/-!
Shallow embedding of the obsidian-tiny-templates plugin (two source variants:
`src/unnamed/part_000`, the newer plugin file, and `src/main.ts`, the older one).
Strings manipulated by the title formatter are modelled as `List Char`;
JavaScript `Date` values are modelled by their observable components
(a `JsDate` record of local calendar fields, UTC calendar fields, weekday,
day-of-year and milliseconds elapsed since local midnight), assuming a
fixed UTC offset (no DST jump inside the modelled year).
-/

namespace TinyTemplates

/-- Decimal rendering of a natural number, as JavaScript `String(n)` produces. -/
def natDigits (n : Nat) : List Char := Nat.toDigits 10 n

/-- Decimal rendering of an integer, as JavaScript `String(i)` produces. -/
def intDigits (i : Int) : List Char :=
  if i < 0 then '-' :: natDigits i.natAbs else natDigits i.natAbs

/-- JavaScript `s.padStart(k, '0')`: left-pad with zeros up to length `k`. -/
def padTo (k : Nat) (s : List Char) : List Char :=
  List.replicate (k - s.length) '0' ++ s

/-- JavaScript global `String.replace` with a literal pattern: scan left to
right, replacing each non-overlapping occurrence of `pat` by `rep`. -/
def replaceAll (pat rep : List Char) : List Char → List Char
  | [] => []
  | c :: cs =>
    if h : pat ≠ [] ∧ pat.isPrefixOf (c :: cs) then
      rep ++ replaceAll pat rep ((c :: cs).drop pat.length)
    else
      c :: replaceAll pat rep cs
termination_by s => s.length
decreasing_by
  · simp only [List.length_drop, List.length_cons]
    have hp : 1 ≤ pat.length := by
      rcases h with ⟨hne, _⟩
      cases pat with
      | nil => exact absurd rfl hne
      | cons a l => simp
    omega
  · simp

/-- Whether `pat` occurs (as a contiguous sublist) anywhere in `s`. -/
def occursIn (pat : List Char) : List Char → Bool
  | [] => false
  | c :: cs => (decide (pat ≠ []) && pat.isPrefixOf (c :: cs)) || occursIn pat cs

/-- All characters differ from the opening brace. -/
def braceFree (s : List Char) : Bool :=
  s.all (fun c => c != '{')

/-!
## Dates

A JavaScript `Date` is modelled by its observable components. The fields
mirror the accessors the plugin calls; `pastMs` models
`now.getTime() - new Date(year, 0, 1).getTime()` under a fixed UTC offset
for the whole year (no daylight-saving jump).
-/

/-- Observable components of a JavaScript `Date` value. -/
structure JsDate where
  /-- `getFullYear()` -/
  year : Nat
  /-- `getMonth()`, 0-based -/
  month0 : Nat
  /-- `getDate()`, 1-based day of month -/
  day : Nat
  /-- `getDay()`, Sunday-indexed weekday -/
  weekday : Fin 7
  /-- 1-based ordinal of the local calendar day within its year -/
  dayOfYear : Nat
  /-- milliseconds elapsed since local midnight -/
  msOfDay : Nat
  /-- `getDay()` of January 1 of `year` -/
  jan1Weekday : Fin 7
  /-- year component of `toISOString()` (UTC calendar date) -/
  utcYear : Nat
  /-- 1-based month component of `toISOString()` -/
  utcMonth : Nat
  /-- day component of `toISOString()` -/
  utcDay : Nat

/-- `now.getTime() - firstDayOfYear.getTime()` in milliseconds (fixed offset). -/
def JsDate.pastMs (d : JsDate) : Nat := (d.dayOfYear - 1) * 86400000 + d.msOfDay

/-!
## Title Formatter (`TitleFormatModal.formatTitle`)
-/

def datePat : List Char := "\x7b\x7bdate\x7d\x7d".toList

def yearPat : List Char := "\x7b\x7byear\x7d\x7d".toList

def quarterPat : List Char := "\x7b\x7bquarter\x7d\x7d".toList

def monthPat : List Char := "\x7b\x7bmonth\x7d\x7d".toList

def weekPat : List Char := "\x7b\x7bweek\x7d\x7d".toList

def weekdayPat : List Char := "\x7b\x7bweekday\x7d\x7d".toList

def dayPat : List Char := "\x7b\x7bday\x7d\x7d".toList

/-- `['日', '一', '二', '三', '四', '五', '六']` from the source. -/
def chineseWeekdays : List Char := "日一二三四五六".toList

/-- `Math.floor((now.getMonth() + 3) / 3)` -/
def quarterOf (d : JsDate) : Nat := (d.month0 + 3) / 3

/-- `(now.getTime() - firstDayOfYear.getTime()) / 86400000` — a fractional
day count, since `getTime` includes the time of day. -/
def pastDaysOfYear (d : JsDate) : ℚ := (d.pastMs : ℚ) / 86400000

/-- `Math.ceil((pastDaysOfYear + firstDayOfYear.getDay() + 1) / 7)` -/
def weekNum (d : JsDate) : Int :=
  ⌈(pastDaysOfYear d + ((d.jan1Weekday : Nat) : ℚ) + 1) / 7⌉

/-- `String(now.getMonth() + 1).padStart(2, '0')` -/
def monthStr (d : JsDate) : List Char := padTo 2 (natDigits (d.month0 + 1))

/-- `String(now.getDate()).padStart(2, '0')` -/
def dayStr (d : JsDate) : List Char := padTo 2 (natDigits d.day)

/-- The `${year}-${month}-${day}` template literal. -/
def dateStr (d : JsDate) : List Char :=
  natDigits d.year ++ ['-'] ++ monthStr d ++ ['-'] ++ dayStr d

/-- `String(weekNum).padStart(2, '0')` -/
def weekStr (d : JsDate) : List Char := padTo 2 (intDigits (weekNum d))

/-- `chineseWeekdays[now.getDay()]` -/
def weekdayStr (d : JsDate) : List Char := [chineseWeekdays.getD (d.weekday : Nat) '*']

/-- `TitleFormatModal.formatTitle` (part_000 lines 933-966): empty format is
returned unchanged (`if (!format) return ''`), otherwise the seven tokens are
globally replaced in source order. -/
def formatTitle (now : JsDate) (format : List Char) : List Char :=
  if format = [] then []
  else
    let r1 := replaceAll datePat (dateStr now) format
    let r2 := replaceAll yearPat (natDigits now.year) r1
    let r3 := replaceAll quarterPat (natDigits (quarterOf now)) r2
    let r4 := replaceAll monthPat (monthStr now) r3
    let r5 := replaceAll weekPat (weekStr now) r4
    let r6 := replaceAll weekdayPat (weekdayStr now) r5
    replaceAll dayPat (dayStr now) r6

/-!
## Folder Scanner

The host's `TFile`/`TFolder` tree is modelled as a tagged variant. `children`
keeps the host's enumeration order, which the scans traverse in order.
-/

/-- A vault file-tree entry: file or folder, discriminated like the
`instanceof TFile / TFolder` checks of the source. -/
inductive FsEntry where
  | file (name : String)
  | dir (name : String) (children : List FsEntry)

/-- `TinyTemplatesModal.scanFolder` (part_000 lines 239-263, main.ts lines
185-209): emits `(path, category)` pairs in scan order. A folder child is
recursed into with `child.name` as the new category; a file child gets the
current category, or the empty category when the containing folder is the
template root (`folder.path === templateFolder`). -/
def scanPicker (tplRoot : String) (folderPath category : String) :
    List FsEntry → List (String × String)
  | [] => []
  | .dir name cs :: rest =>
      scanPicker tplRoot (folderPath ++ "/" ++ name) name cs ++
        scanPicker tplRoot folderPath category rest
  | .file name :: rest =>
      (folderPath ++ "/" ++ name,
        if folderPath = tplRoot then "" else category) ::
        scanPicker tplRoot folderPath category rest

/-- `TinyTemplatesSettingTab.scanFolder` (part_000 lines 629-664, main.ts
lines 554-589): a folder child extends the category with
`category ? category + "/" + name : name`. -/
def scanSettings (tplRoot : String) (folderPath category : String) :
    List FsEntry → List (String × String)
  | [] => []
  | .dir name cs :: rest =>
      scanSettings tplRoot (folderPath ++ "/" ++ name)
          (if category = "" then name else category ++ "/" ++ name) cs ++
        scanSettings tplRoot folderPath category rest
  | .file name :: rest =>
      (folderPath ++ "/" ++ name,
        if folderPath = tplRoot then "" else category) ::
        scanSettings tplRoot folderPath category rest

/-- Join folder names with `/`. -/
def joinPath : List String → String
  | [] => ""
  | [x] => x
  | x :: (y :: ys) => x ++ "/" ++ joinPath (y :: ys)

/-- Reference scan following the spec's words for the amended claim: each
file's category is the name of its immediate parent folder (`parent?`),
empty for files directly in the scanned root. -/
def expectedPicker (parentName : Option String) (folderPath : String) :
    List FsEntry → List (String × String)
  | [] => []
  | .dir name cs :: rest =>
      expectedPicker (some name) (folderPath ++ "/" ++ name) cs ++
        expectedPicker parentName folderPath rest
  | .file name :: rest =>
      (folderPath ++ "/" ++ name, (parentName.getD "")) ::
        expectedPicker parentName folderPath rest

/-- Reference scan following the spec's words: each file's category is the
relative subpath of its parent folder below the root, joined with `/`. -/
def expectedSettings (relDirs : List String) (folderPath : String) :
    List FsEntry → List (String × String)
  | [] => []
  | .dir name cs :: rest =>
      expectedSettings (relDirs ++ [name]) (folderPath ++ "/" ++ name) cs ++
        expectedSettings relDirs folderPath rest
  | .file name :: rest =>
      (folderPath ++ "/" ++ name, joinPath relDirs) ::
        expectedSettings relDirs folderPath rest

/-- Every folder in the given entries has a nonempty name. -/
def dirNamesNonempty : List FsEntry → Bool
  | [] => true
  | .dir name cs :: rest => name ≠ "" && dirNamesNonempty cs && dirNamesNonempty rest
  | .file _ :: rest => dirNamesNonempty rest

/-!
## Category/Template Index

`categorizedTemplates` is a JavaScript object built by pushing each scanned
template under its category key; object keys keep first-insertion order.
`sortedCategories` sorts the keys with the comparator of `loadTemplates`
(empty category first, then the host's locale collation `lc`, an external
function). JavaScript's `Array.prototype.sort` is modelled as a stable
insertion sort, which satisfies the guarantees the host gives for a
consistent comparator.
-/

/-- Append `path` to the bucket of `cat`, creating the bucket at the end on
first use (JS object key insertion order). -/
def addToCategory (acc : List (String × List String)) (cat path : String) :
    List (String × List String) :=
  match acc with
  | [] => [(cat, [path])]
  | (c, ps) :: rest =>
    if c = cat then (c, ps ++ [path]) :: rest
    else (c, ps) :: addToCategory rest cat path

/-- The `categorizedTemplates` object built from the scan listing, in scan
order (part_000 lines 193-206, main.ts lines 139-152). -/
def buildCategorized (templates : List (String × String)) :
    List (String × List String) :=
  templates.foldl (fun acc pc => addToCategory acc pc.2 pc.1) []

/-- The category comparator of `loadTemplates`: `''` sorts first, the rest by
the external locale collator `lc` (`a.localeCompare(b, 'zh-CN')`). -/
def catCmp (lc : String → String → Int) (a b : String) : Int :=
  if a = "" then -1 else if b = "" then 1 else lc a b

/-- Stable insertion into a sorted list under a JS comparator. -/
def insertCmp (cmp : String → String → Int) (x : String) :
    List String → List String
  | [] => [x]
  | y :: ys => if cmp x y ≤ 0 then x :: y :: ys else y :: insertCmp cmp x ys

/-- Stable sort under a JS comparator (model of `Array.prototype.sort`). -/
def sortCmp (cmp : String → String → Int) : List String → List String
  | [] => []
  | x :: xs => insertCmp cmp x (sortCmp cmp xs)

/-- `sortedCategories` as computed in part_000 `loadTemplates` (lines
217-222) and recomputed identically in main.ts `loadTemplates` and
`renderTemplateList`. -/
def sortedCategories (lc : String → String → Int)
    (templates : List (String × String)) : List String :=
  sortCmp (catCmp lc) ((buildCategorized templates).map Prod.fst)

/-- The category list main.ts `navigateCategory` / `navigateWithinCategory`
index into: `Object.keys(this.categorizedTemplates)`, i.e. insertion order
(main.ts lines 311, 326). -/
def navCategoriesOld (templates : List (String × String)) : List String :=
  (buildCategorized templates).map Prod.fst

/-!
## Selection Cursor

The navigation functions operate on the ordered list of category buckets
(`sortedCategories` composed with the `categorizedTemplates` lookup), which
is modelled as a `List (List String)`. JavaScript index arithmetic is done
in `Int` with the `%` of JavaScript (`jsMod`); an out-of-range or negative
index yields `undefined`, and `categorizedTemplates[undefined] || []` is
the empty list, which `getCatI` models.
-/

structure Cursor where
  cat : Nat
  tpl : Nat
deriving DecidableEq

/-- JavaScript's `%` on integers (sign of the dividend), for positive divisor. -/
def jsMod (a b : Int) : Int := if a < 0 then -((-a) % b) else a % b

/-- `categorizedTemplates[sortedCategories[i]] || []`. -/
def getCatI (idx : List (List String)) (i : Int) : List String :=
  if h : 0 ≤ i ∧ i.toNat < idx.length then idx.get ⟨i.toNat, h.2⟩ else []

/-- part_000 `navigateCategory` (lines 359-374): move to the adjacent
category, keeping the template position clamped to the new bucket's length. -/
def navigateCategoryNew (idx : List (List String)) (d : Int) (s : Cursor) :
    Cursor :=
  if idx.length = 0 then s
  else
    let nc : Int := jsMod ((s.cat : Int) + d + (idx.length : Int)) (idx.length : Int)
    let newTemplates := getCatI idx nc
    if newTemplates.length > 0 then
      ⟨nc.toNat, min s.tpl (newTemplates.length - 1)⟩
    else s

/-- main.ts `navigateCategory` (lines 310-323): move to the adjacent
category's last template when going up, first when going down. -/
def navigateCategoryOld (idx : List (List String)) (d : Int) (s : Cursor) :
    Cursor :=
  if idx.length = 0 then s
  else
    let nc : Int := jsMod ((s.cat : Int) + d + (idx.length : Int)) (idx.length : Int)
    let newTemplates := getCatI idx nc
    if newTemplates.length > 0 then
      ⟨nc.toNat, if d < 0 then newTemplates.length - 1 else 0⟩
    else s

/-- `navigateWithinCategory` (identical logic in part_000 lines 376-399 and
main.ts lines 325-349): move within the bucket, crossing into the previous
bucket's last template or the next bucket's first template at the edges.
The source computes `(newCategoryIndex, newTemplateIndex)` in one of three
branches and then applies a single `if (newTemplates.length > 0)` guard on
the target bucket; here the guard is stated inside each branch, which
yields the same cursor since `newTemplates` is the branch's target bucket. -/
def navigateWithinCategory (idx : List (List String)) (d : Int) (s : Cursor) :
    Cursor :=
  if idx.length = 0 then s
  else
    let cur := getCatI idx (s.cat : Int)
    let nt : Int := (s.tpl : Int) + d
    if nt < 0 then
      let nc := (jsMod ((s.cat : Int) - 1 + (idx.length : Int)) (idx.length : Int)).toNat
      let prev := getCatI idx (nc : Int)
      if prev.length > 0 then ⟨nc, (((prev.length : Int)) - 1).toNat⟩ else s
    else if (cur.length : Int) ≤ nt then
      let nc := (s.cat + 1) % idx.length
      let newT := getCatI idx (nc : Int)
      if newT.length > 0 then ⟨nc, 0⟩ else s
    else
      if cur.length > 0 then ⟨s.cat, nt.toNat⟩ else s

/-- The cursor addresses an existing template of the listing. -/
def validCursor (idx : List (List String)) (s : Cursor) : Prop :=
  s.cat < idx.length ∧ s.tpl < (getCatI idx (s.cat : Int)).length

instance (idx : List (List String)) (s : Cursor) : Decidable (validCursor idx s) := by
  unfold validCursor
  infer_instance

/-- A navigation keystroke, with its direction argument. -/
inductive NavOp where
  | catNew (d : Int)
  | catOld (d : Int)
  | within (d : Int)

def applyOp (idx : List (List String)) (s : Cursor) : NavOp → Cursor
  | .catNew d => navigateCategoryNew idx d s
  | .catOld d => navigateCategoryOld idx d s
  | .within d => navigateWithinCategory idx d s

def applyOps (idx : List (List String)) (ops : List NavOp) (s : Cursor) : Cursor :=
  ops.foldl (applyOp idx) s

/-- Number of templates in the first `c` category buckets. -/
def prefixSum (idx : List (List String)) (c : Nat) : Nat :=
  ((idx.take c).map List.length).sum

/-- Total number of templates over all categories. -/
def totalCount (idx : List (List String)) : Nat := (idx.map List.length).sum

/-- Flattened position of a cursor in the listing. -/
def toPos (idx : List (List String)) (s : Cursor) : Nat :=
  prefixSum idx s.cat + s.tpl

/-!
## Instantiation Engine (`createFileFromTemplate`)

The vault is an association list from path to entry; a file's text is
modelled as parsed front matter plus the remaining body, since the only
mutation the plugin performs (`processFrontMatter`) works on the parsed
front-matter mapping.
-/

/-- A file's text: host-parsed front matter and the rest of the body. -/
structure Content where
  frontmatter : List (String × String)
  body : String
deriving DecidableEq

inductive VEntry where
  | file (content : Content)
  | folder
deriving DecidableEq

/-- The vault: association list from path to entry. -/
abbrev Vault := List (String × VEntry)

/-- `app.vault.getAbstractFileByPath` -/
def getEntry (v : Vault) (p : String) : Option VEntry :=
  (v.find? (fun e => e.1 == p)).map Prod.snd

/-- A template's stored per-template configuration record. -/
structure TemplateConfig where
  name : String
  targetFolder : Option String
  dateFields : Option (List (String × Bool))
  titleFormat : Option String
deriving DecidableEq

/-- `settings.templates`: association list from template path to its record. -/
abbrev Settings := List (String × TemplateConfig)

def getConfig (s : Settings) (p : String) : Option TemplateConfig :=
  (s.find? (fun e => e.1 == p)).map Prod.snd

/-- Outcome of a `createFileFromTemplate` run, matching the notices of the
source: template missing, configuration record missing, target folder not
configured, target folder missing on disk, or the host create call throwing. -/
inductive CreateResult where
  | ok (path : String)
  | errTemplateMissing
  | errConfigMissing
  | errTargetUnset
  | errTargetMissing
  | errCreateFailed
deriving DecidableEq

/-- JavaScript object assignment `frontmatter[k] = v`: overwrite in place,
or append a new key at the end. -/
def setKey (fm : List (String × String)) (k v : String) : List (String × String) :=
  match fm with
  | [] => [(k, v)]
  | (k0, v0) :: rest =>
    if k0 = k then (k0, v) :: rest else (k0, v0) :: setKey rest k v

/-- The `processFrontMatter` callback: stamp every field flagged `true` with
today's date string, leaving the rest alone. -/
def applyDateFields (today : String) (dfs : List (String × Bool))
    (fm : List (String × String)) : List (String × String) :=
  dfs.foldl (fun fm fb => if fb.2 then setKey fm fb.1 today else fm) fm

/-- Replace the entry at `p` (used to model the front-matter patch of the
freshly created file). -/
def setEntry (v : Vault) (p : String) (e : VEntry) : Vault :=
  match v with
  | [] => [(p, e)]
  | (p0, e0) :: rest =>
    if p0 = p then (p0, e) :: rest else (p0, e0) :: setEntry rest p e

/-- part_000 line 454: local-time `${getFullYear()}-${getMonth()+1}-${getDate()}`
with 2-digit padding. -/
def localToday (now : JsDate) : String :=
  String.mk (natDigits now.year ++ ['-'] ++ padTo 2 (natDigits (now.month0 + 1)) ++
    ['-'] ++ padTo 2 (natDigits now.day))

/-- main.ts line 391: `new Date().toISOString().slice(0, 10)` — the UTC
calendar date. -/
def utcToday (now : JsDate) : String :=
  String.mk (padTo 4 (natDigits now.utcYear) ++ ['-'] ++ padTo 2 (natDigits now.utcMonth) ++
    ['-'] ++ padTo 2 (natDigits now.utcDay))

/-- `TinyTemplatesModal.createFileFromTemplate` of part_000 (lines 401-471):
resolve template, configuration and target folder, copy the content to
`targetFolder/<name>.md` (the formatted title if configured, else the
`未命名` placeholder), then stamp the flagged date fields with the local
date. `vault.create` on an existing path throws, reported as
`errCreateFailed`. -/
def createFileFromTemplateNew (vault : Vault) (settings : Settings)
    (now : JsDate) (templatePath : String) : Vault × CreateResult :=
  match getEntry vault templatePath with
  | some (.file content) =>
    match getConfig settings templatePath with
    | some cfg =>
      let targetFolder := cfg.targetFolder.getD ""
      if targetFolder = "" then (vault, .errTargetUnset)
      else
        match getEntry vault targetFolder with
        | some .folder =>
          let fileName :=
            match cfg.titleFormat with
            | some tf =>
              if tf ≠ "" then
                let formatted := formatTitle now tf.toList
                if formatted ≠ [] then String.mk formatted ++ ".md" else "未命名.md"
              else "未命名.md"
            | none => "未命名.md"
          let filePath := targetFolder ++ "/" ++ fileName
          match getEntry vault filePath with
          | some _ => (vault, .errCreateFailed)
          | none =>
            let vault1 := vault ++ [(filePath, .file content)]
            let dateFields := cfg.dateFields.getD []
            if dateFields ≠ [] then
              (setEntry vault1 filePath (.file
                { content with
                  frontmatter :=
                    applyDateFields (localToday now) dateFields content.frontmatter }),
                .ok filePath)
            else (vault1, .ok filePath)
        | _ => (vault, .errTargetMissing)
    | none => (vault, .errConfigMissing)
  | _ => (vault, .errTemplateMissing)

/-- `TinyTemplatesModal.createFileFromTemplate` of main.ts (lines 351-409):
same flow, but the file name is always the `未命名` placeholder and the date
stamp is the UTC `toISOString().slice(0, 10)` date. -/
def createFileFromTemplateOld (vault : Vault) (settings : Settings)
    (now : JsDate) (templatePath : String) : Vault × CreateResult :=
  match getEntry vault templatePath with
  | some (.file content) =>
    match getConfig settings templatePath with
    | some cfg =>
      let targetFolder := cfg.targetFolder.getD ""
      if targetFolder = "" then (vault, .errTargetUnset)
      else
        match getEntry vault targetFolder with
        | some .folder =>
          let filePath := targetFolder ++ "/" ++ "未命名.md"
          match getEntry vault filePath with
          | some _ => (vault, .errCreateFailed)
          | none =>
            let vault1 := vault ++ [(filePath, .file content)]
            let dateFields := cfg.dateFields.getD []
            if dateFields ≠ [] then
              (setEntry vault1 filePath (.file
                { content with
                  frontmatter :=
                    applyDateFields (utcToday now) dateFields content.frontmatter }),
                .ok filePath)
            else (vault1, .ok filePath)
        | _ => (vault, .errTargetMissing)
    | none => (vault, .errConfigMissing)
  | _ => (vault, .errTemplateMissing)

/-- An instant at 00:30 local time on Saturday 2024-03-16 in a UTC+8 zone:
the UTC calendar date is still 2024-03-15. -/
def c1Now : JsDate :=
  ⟨2024, 2, 16, ⟨6, by omega⟩, 76, 1800000, ⟨1, by omega⟩, 2024, 3, 15⟩

/-- The claim's week formula: `ceil((dayOfYear + firstWeekdayOffset) / 7)`
with the offset taken as the Sunday-indexed weekday of January 1.
Modelled from the spec for comparison with the source's `weekNum`. -/
def specWeekFormula (d : JsDate) : Int :=
  ⌈(((d.dayOfYear + (d.jan1Weekday : Nat) : Nat)) : ℚ) / 7⌉

def c5Midnight : JsDate :=
  ⟨2024, 0, 6, ⟨6, by omega⟩, 6, 0, ⟨1, by omega⟩, 2024, 1, 6⟩

def c5Noon : JsDate :=
  ⟨2024, 0, 6, ⟨6, by omega⟩, 6, 43200000, ⟨1, by omega⟩, 2024, 1, 6⟩

/-!
## Date-fields save handler (part_000 `DateFieldsModal`)
-/

/-- JavaScript spread `{...currentFields, ...this.dateFields}`: keys of
`current` keep their positions with values overridden by `toggled`, then the
new keys of `toggled` follow in order. -/
def mergeSpread (current toggled : List (String × Bool)) : List (String × Bool) :=
  current.map
      (fun kv => (kv.1, ((toggled.find? (fun e => e.1 == kv.1)).map Prod.snd).getD kv.2)) ++
    toggled.filter (fun kv => !(current.any (fun e => e.1 == kv.1)))

/-- part_000 `DateFieldsModal` save handler (lines 1051-1062): merge the
stored fields with the modal's toggles, then keep only the `true` entries. -/
def saveDateFields (current toggled : List (String × Bool)) : List (String × Bool) :=
  (mergeSpread current toggled).filter (fun kv => kv.2)

/-- The value a key ends up with after the spread: the toggled value if the
key was toggled this session, otherwise the stored value, otherwise absent. -/
def mergedValue (current toggled : List (String × Bool)) (k : String) : Option Bool :=
  match toggled.find? (fun e => e.1 == k) with
  | some kv => some kv.2
  | none => (current.find? (fun e => e.1 == k)).map Prod.snd

theorem replaceAll_nil (pat rep : List Char) : replaceAll pat rep [] = [] := by
  simp [replaceAll]

/-- If the pattern occurs nowhere in `s`, replacement leaves `s` unchanged. -/
theorem replaceAll_of_not_occursIn (pat rep : List Char) (s : List Char)
    (h : occursIn pat s = false) : replaceAll pat rep s = s := by
  induction s with
  | nil => simp [replaceAll]
  | cons c cs ih =>
    rw [replaceAll]
    simp only [occursIn, Bool.or_eq_false_iff, Bool.and_eq_false_iff] at h
    rcases h with ⟨h1, h2⟩
    have hcond : ¬ (pat ≠ [] ∧ pat.isPrefixOf (c :: cs)) := by
      intro ⟨ha, hb⟩
      rcases h1 with h1 | h1
      · simp [ha] at h1
      · rw [h1] at hb; exact Bool.false_ne_true hb
    rw [dif_neg hcond]
    rw [ih h2]

/-- Replacement at an exact occurrence of the pattern at the head. -/
theorem replaceAll_append_pat (pat rep ys : List Char) (hne : pat ≠ []) :
    replaceAll pat rep (pat ++ ys) = rep ++ replaceAll pat rep ys := by
  cases pat with
  | nil => exact absurd rfl hne
  | cons p ps =>
    rw [List.cons_append, replaceAll]
    have hpre : (p :: ps).isPrefixOf (p :: (ps ++ ys)) = true := by
      exact List.isPrefixOf_iff_prefix.mpr ⟨ys, by simp⟩
    rw [dif_pos ⟨hne, hpre⟩]
    have hdrop : (p :: (ps ++ ys)).drop (p :: ps).length = ys := by
      simp only [List.length_cons, List.drop_succ_cons]
      exact List.drop_left ps ys
    rw [hdrop]

/-- A brace-free prefix is copied verbatim when the pattern starts with a brace. -/
theorem replaceAll_braceFree_append (pat' rep : List Char) (xs ys : List Char)
    (hx : braceFree xs = true) :
    replaceAll ('{' :: pat') rep (xs ++ ys) =
      xs ++ replaceAll ('{' :: pat') rep ys := by
  induction xs with
  | nil => simp
  | cons c cs ih =>
    simp only [braceFree, List.all_cons, Bool.and_eq_true] at hx
    rcases hx with ⟨hc, hcs⟩
    rw [List.cons_append, replaceAll]
    have hcond : ¬ (('{' :: pat') ≠ [] ∧ ('{' :: pat').isPrefixOf (c :: (cs ++ ys))) := by
      intro ⟨_, hb⟩
      have := List.isPrefixOf_iff_prefix.mp hb
      rcases this with ⟨t, ht⟩
      have : c = '{' := by
        have := ht
        simp only [List.cons_append, List.cons.injEq] at this
        exact this.1.symm
      rw [this] at hc
      simp at hc
    rw [dif_neg hcond]
    rw [ih hcs, List.cons_append]

/-- A brace-free string is untouched by a replacement whose pattern starts with a brace. -/
theorem replaceAll_braceFree (pat' rep : List Char) (xs : List Char)
    (hx : braceFree xs = true) :
    replaceAll ('{' :: pat') rep xs = xs := by
  have := replaceAll_braceFree_append pat' rep xs [] hx
  simpa [replaceAll_nil] using this

theorem braceFree_append (xs ys : List Char) :
    braceFree (xs ++ ys) = (braceFree xs && braceFree ys) := by
  simp [braceFree]

theorem digitChar_lt10_ne_brace (m : Nat) (hm : m < 10) :
    (Nat.digitChar m != '{') = true := by
  interval_cases m <;> decide

theorem toDigitsCore_braceFree (fuel : Nat) :
    ∀ (n : Nat) (ds : List Char), braceFree ds = true →
      braceFree (Nat.toDigitsCore 10 fuel n ds) = true := by
  induction fuel with
  | zero => intro n ds h; exact h
  | succ fuel ih =>
    intro n ds h
    rw [Nat.toDigitsCore]
    have hd : braceFree ((n % 10).digitChar :: ds) = true := by
      simp only [braceFree, List.all_cons, Bool.and_eq_true]
      exact ⟨digitChar_lt10_ne_brace _ (Nat.mod_lt _ (by omega)), h⟩
    split
    · exact hd
    · exact ih _ _ hd

theorem braceFree_natDigits (n : Nat) : braceFree (natDigits n) = true :=
  toDigitsCore_braceFree (n + 1) n [] rfl

theorem braceFree_intDigits (i : Int) : braceFree (intDigits i) = true := by
  rw [intDigits]
  split
  · simp only [braceFree, List.all_cons]
    have := braceFree_natDigits i.natAbs
    simp only [braceFree] at this
    rw [this]; decide
  · exact braceFree_natDigits i.natAbs

theorem braceFree_padTo (k : Nat) (s : List Char) (hs : braceFree s = true) :
    braceFree (padTo k s) = true := by
  rw [padTo, braceFree_append, hs]
  simp only [Bool.and_true]
  induction (k - s.length) with
  | zero => decide
  | succ n ih =>
    rw [List.replicate_succ]
    simp only [braceFree, List.all_cons] at ih ⊢
    rw [ih]; decide

/-- Ceiling of a quotient of naturals, expressed as natural division. -/
theorem ceil_natCast_div (a b : Nat) (hb : 0 < b) :
    ⌈(a : ℚ) / (b : ℚ)⌉ = (((a + b - 1) / b : ℕ) : ℤ) := by
  have hbq : (0 : ℚ) < (b : ℚ) := by exact_mod_cast hb
  set Q := (a + b - 1) / b with hQ
  have h1 : Q * b ≤ a + b - 1 := Nat.div_mul_le_self _ _
  have h2 : a + b - 1 < Q * b + b := by
    have := (Nat.div_lt_iff_lt_mul hb).mp (Nat.lt_succ_self Q)
    rw [Nat.succ_mul] at this
    exact this
  have hA : a ≤ Q * b := by
    generalize Q * b = QB at h1 h2
    omega
  have hB : Q * b < a + b := by
    generalize Q * b = QB at h1 h2
    omega
  rw [Int.ceil_eq_iff]
  constructor
  · rw [lt_div_iff₀ hbq]
    have hBq : ((Q * b : ℕ) : ℚ) < ((a + b : ℕ) : ℚ) := by exact_mod_cast hB
    push_cast at hBq ⊢
    nlinarith
  · rw [div_le_iff₀ hbq]
    have hAq : ((a : ℕ) : ℚ) ≤ ((Q * b : ℕ) : ℚ) := by exact_mod_cast hA
    push_cast at hAq ⊢
    nlinarith

/-- `weekNum` as a natural ceiling division: the rational arithmetic of the
source collapses to `ceil((pastMs + (jan1Weekday + 1) * dayMs) / weekMs)`. -/
theorem weekNum_eq_natDiv (d : JsDate) :
    weekNum d =
      (((d.pastMs + ((d.jan1Weekday : Nat) + 1) * 86400000 + 7 * 86400000 - 1) /
        (7 * 86400000) : ℕ) : ℤ) := by
  rw [weekNum, pastDaysOfYear]
  have h1 : ((d.pastMs : ℚ) / 86400000 + ((d.jan1Weekday : Nat) : ℚ) + 1) / 7 =
      ((d.pastMs + ((d.jan1Weekday : Nat) + 1) * 86400000 : ℕ) : ℚ) / ((7 * 86400000 : ℕ) : ℚ) := by
    push_cast
    field_simp
    ring
  rw [h1, ceil_natCast_div _ _ (by norm_num)]

theorem length_append_slash (root s : String) :
    (root ++ "/" ++ s).length = root.length + 1 + s.length := by
  simp only [String.length_append]
  rfl

theorem joinPath_append_single (xs : List String) (y : String) :
    joinPath (xs ++ [y]) = if xs = [] then y else joinPath xs ++ "/" ++ y := by
  induction xs with
  | nil => simp [joinPath]
  | cons x xs' ih =>
    cases xs' with
    | nil => simp [joinPath]
    | cons z zs =>
      simp only [List.cons_append] at ih ⊢
      rw [show joinPath (x :: z :: (zs ++ [y])) =
            x ++ "/" ++ joinPath (z :: (zs ++ [y])) from rfl]
      rw [ih]
      rw [if_neg (List.cons_ne_nil z zs), if_neg (List.cons_ne_nil x (z :: zs))]
      rw [show joinPath (x :: z :: zs) = x ++ "/" ++ joinPath (z :: zs) from rfl]
      simp [String.append_assoc]

theorem joinPath_ne_empty (xs : List String) (hne : xs ≠ [])
    (hx : ∀ x ∈ xs, x ≠ "") : joinPath xs ≠ "" := by
  cases xs with
  | nil => exact absurd rfl hne
  | cons x xs' =>
    cases xs' with
    | nil => exact hx x (by simp)
    | cons z zs =>
      intro h
      have := congrArg String.length h
      rw [joinPath, length_append_slash] at this
      have h0 : String.length "" = 0 := rfl
      omega

/-- The picker scan's category argument always equals the name of the
file's immediate parent folder (`parentName`), empty at the template root. -/
theorem scanPicker_expected (tplRoot : String) (folderPath category : String)
    (children : List FsEntry) :
    ∀ (parentName : Option String),
      ((folderPath = tplRoot ∧ parentName = none) ∨
        (tplRoot.length < folderPath.length ∧ category = parentName.getD "")) →
      scanPicker tplRoot folderPath category children =
        expectedPicker parentName folderPath children := by
  induction folderPath, category, children using scanPicker.induct tplRoot with
  | case1 fp cat =>
    intro pn _
    rw [scanPicker, expectedPicker]
  | case2 fp cat name cs rest ih1 ih2 =>
    intro pn h
    have hlen : tplRoot.length ≤ fp.length := by
      rcases h with ⟨h1, _⟩ | ⟨h1, _⟩
      · rw [h1]
      · omega
    rw [scanPicker, expectedPicker]
    rw [ih1 (some name) (Or.inr ⟨by rw [length_append_slash]; omega, rfl⟩)]
    rw [ih2 pn h]
  | case3 fp cat name rest ih =>
    intro pn h
    rw [scanPicker, expectedPicker, ih pn h]
    rcases h with ⟨h1, h2⟩ | ⟨h1, h2⟩
    · rw [if_pos h1, h2]
      rfl
    · have : fp ≠ tplRoot := by
        intro he
        rw [he] at h1
        omega
      rw [if_neg this, h2]

/-- The settings scan's category argument always equals the `/`-joined
relative path of the folder below the template root. -/
theorem scanSettings_expected (tplRoot : String) (folderPath category : String)
    (children : List FsEntry) :
    ∀ (relDirs : List String),
      dirNamesNonempty children = true →
      ((folderPath = tplRoot ∧ relDirs = [] ∧ category = "") ∨
        (tplRoot.length < folderPath.length ∧ relDirs ≠ [] ∧
          category = joinPath relDirs ∧ ∀ x ∈ relDirs, x ≠ "")) →
      scanSettings tplRoot folderPath category children =
        expectedSettings relDirs folderPath children := by
  induction folderPath, category, children using scanSettings.induct tplRoot with
  | case1 fp cat =>
    intro rd _ _
    rw [scanSettings, expectedSettings]
  | case2 fp cat name cs rest ih1 ih2 =>
    intro rd hdn h
    rw [dirNamesNonempty] at hdn
    simp only [Bool.and_eq_true, decide_eq_true_eq] at hdn
    obtain ⟨⟨hname, hcs⟩, hrest⟩ := hdn
    have hlen : tplRoot.length ≤ fp.length := by
      rcases h with ⟨h1, _⟩ | ⟨h1, _⟩
      · rw [h1]
      · omega
    have hcat' : (if cat = "" then name else cat ++ "/" ++ name) =
        joinPath (rd ++ [name]) := by
      rw [joinPath_append_single]
      rcases h with ⟨_, h2, h3⟩ | ⟨_, h2, h3, h4⟩
      · rw [h2, h3]
        simp
      · rw [if_neg h2, h3]
        rw [if_neg (joinPath_ne_empty rd h2 h4)]
    have hinv : (fp ++ "/" ++ name = tplRoot ∧ rd ++ [name] = [] ∧
          (if cat = "" then name else cat ++ "/" ++ name) = "") ∨
        (tplRoot.length < (fp ++ "/" ++ name).length ∧ rd ++ [name] ≠ [] ∧
          (if cat = "" then name else cat ++ "/" ++ name) = joinPath (rd ++ [name]) ∧
          ∀ x ∈ rd ++ [name], x ≠ "") := by
      right
      refine ⟨by rw [length_append_slash]; omega, by simp, hcat', ?_⟩
      intro x hx
      rcases List.mem_append.mp hx with hx | hx
      · rcases h with ⟨_, h2, _⟩ | ⟨_, _, _, h4⟩
        · rw [h2] at hx
          simp at hx
        · exact h4 x hx
      · simp only [List.mem_singleton] at hx
        rw [hx]
        exact hname
    simp only [dite_eq_ite] at ih1
    rw [scanSettings, expectedSettings]
    rw [ih1 (rd ++ [name]) hcs hinv]
    rw [ih2 rd hrest h]
  | case3 fp cat name rest ih =>
    intro rd hdn h
    rw [dirNamesNonempty] at hdn
    rw [scanSettings, expectedSettings, ih rd hdn h]
    rcases h with ⟨h1, h2, h3⟩ | ⟨h1, h2, h3, _⟩
    · rw [if_pos h1, h2]
      rfl
    · have : fp ≠ tplRoot := by
        intro he
        rw [he] at h1
        omega
      rw [if_neg this, h3]

theorem getCatI_pos (idx : List (List String)) (i : Int)
    (h : 0 < (getCatI idx i).length) : 0 ≤ i ∧ i.toNat < idx.length := by
  by_contra hc
  rw [getCatI, dif_neg hc] at h
  simp at h

theorem getCatI_toNat (idx : List (List String)) (i : Int) (h0 : 0 ≤ i) :
    getCatI idx ((i.toNat : Nat) : Int) = getCatI idx i := by
  rw [Int.toNat_of_nonneg h0]

theorem getCatI_nonempty (idx : List (List String))
    (hne : ∀ l ∈ idx, l ≠ []) (n : Nat) (h : n < idx.length) :
    0 < (getCatI idx (n : Int)).length := by
  rw [getCatI, dif_pos ⟨Int.natCast_nonneg n, by simpa using h⟩]
  exact List.length_pos.mpr (hne _ (List.get_mem idx _ _))

theorem getCatI_cons_succ (l : List String) (ls : List (List String)) (n : Nat) :
    getCatI (l :: ls) ((n + 1 : Nat) : Int) = getCatI ls (n : Int) := by
  by_cases h : n < ls.length
  · rw [getCatI, dif_pos ⟨Int.natCast_nonneg _, by simpa using Nat.succ_lt_succ h⟩,
      getCatI, dif_pos ⟨Int.natCast_nonneg _, by simpa using h⟩]
    rfl
  · rw [getCatI, dif_neg, getCatI, dif_neg]
    · simpa using h
    · simpa using fun _ => h

theorem getCatI_cons_zero (l : List String) (ls : List (List String)) :
    getCatI (l :: ls) ((0 : Nat) : Int) = l := by
  rw [getCatI, dif_pos ⟨le_refl 0, by simp⟩]
  rfl

theorem navigateCategoryNew_valid (idx : List (List String)) (d : Int)
    (s : Cursor) (hv : validCursor idx s) :
    validCursor idx (navigateCategoryNew idx d s) := by
  simp only [navigateCategoryNew]
  split_ifs with h0 hpos
  · exact hv
  · have hb := getCatI_pos idx _ hpos
    refine ⟨by simpa using hb.2, ?_⟩
    dsimp only
    rw [getCatI_toNat idx _ hb.1]
    exact lt_of_le_of_lt (Nat.min_le_right _ _) (Nat.sub_lt hpos Nat.one_pos)
  · exact hv

theorem navigateCategoryOld_valid (idx : List (List String)) (d : Int)
    (s : Cursor) (hv : validCursor idx s) :
    validCursor idx (navigateCategoryOld idx d s) := by
  simp only [navigateCategoryOld]
  split_ifs with h0 hpos hd
  · exact hv
  · have hb := getCatI_pos idx _ hpos
    refine ⟨by simpa using hb.2, ?_⟩
    dsimp only
    rw [getCatI_toNat idx _ hb.1]
    exact Nat.sub_lt hpos Nat.one_pos
  · have hb := getCatI_pos idx _ hpos
    refine ⟨by simpa using hb.2, ?_⟩
    dsimp only
    rw [getCatI_toNat idx _ hb.1]
    exact hpos
  · exact hv

theorem navigateWithinCategory_valid (idx : List (List String)) (d : Int)
    (s : Cursor) (hv : validCursor idx s) :
    validCursor idx (navigateWithinCategory idx d s) := by
  simp only [navigateWithinCategory]
  split_ifs with h0 h1 h2 h3 h4 h5
  · exact hv
  · have hb := getCatI_pos idx _ h2
    refine ⟨hb.2, ?_⟩
    dsimp only
    omega
  · exact hv
  · refine ⟨Nat.mod_lt _ (Nat.pos_of_ne_zero h0), h4⟩
  · exact hv
  · exact ⟨hv.1, by dsimp only; omega⟩
  · exact hv

theorem applyOp_valid (idx : List (List String)) (s : Cursor) (op : NavOp)
    (hv : validCursor idx s) : validCursor idx (applyOp idx s op) := by
  cases op with
  | catNew d => exact navigateCategoryNew_valid idx d s hv
  | catOld d => exact navigateCategoryOld_valid idx d s hv
  | within d => exact navigateWithinCategory_valid idx d s hv

theorem applyOp_nil (s : Cursor) (op : NavOp) : applyOp [] s op = s := by
  cases op <;>
    simp [applyOp, navigateCategoryNew, navigateCategoryOld, navigateWithinCategory]

theorem prefixSum_nil (k : Nat) : prefixSum [] k = 0 := by
  simp [prefixSum]

theorem prefixSum_zero (idx : List (List String)) : prefixSum idx 0 = 0 := rfl

theorem prefixSum_cons_succ (l : List String) (ls : List (List String)) (c : Nat) :
    prefixSum (l :: ls) (c + 1) = l.length + prefixSum ls c := by
  simp [prefixSum]

theorem totalCount_cons (l : List String) (ls : List (List String)) :
    totalCount (l :: ls) = l.length + totalCount ls := by
  simp [totalCount]

theorem prefixSum_le_totalCount (idx : List (List String)) :
    ∀ k, prefixSum idx k ≤ totalCount idx := by
  induction idx with
  | nil => intro k; rw [prefixSum_nil]; exact Nat.zero_le _
  | cons l ls ih =>
    intro k
    cases k with
    | zero => exact Nat.zero_le _
    | succ c =>
      rw [prefixSum_cons_succ, totalCount_cons]
      have := ih c
      omega

theorem prefixSum_mono (idx : List (List String)) :
    ∀ a b, a ≤ b → prefixSum idx a ≤ prefixSum idx b := by
  induction idx with
  | nil => intro a b _; rw [prefixSum_nil, prefixSum_nil]
  | cons l ls ih =>
    intro a b hab
    cases a with
    | zero => rw [prefixSum_zero]; exact Nat.zero_le _
    | succ a' =>
      cases b with
      | zero => omega
      | succ b' =>
        rw [prefixSum_cons_succ, prefixSum_cons_succ]
        have := ih a' b' (by omega)
        omega

theorem prefixSum_succ_eq (idx : List (List String)) :
    ∀ c, c < idx.length →
      prefixSum idx (c + 1) = prefixSum idx c + (getCatI idx (c : Int)).length := by
  induction idx with
  | nil => intro c h; simp at h
  | cons l ls ih =>
    intro c h
    cases c with
    | zero =>
      rw [prefixSum_cons_succ, getCatI_cons_zero, prefixSum_zero, prefixSum_zero]
      omega
    | succ c' =>
      rw [prefixSum_cons_succ, getCatI_cons_succ]
      have hc' : c' < ls.length := by simpa using Nat.lt_of_succ_lt_succ h
      rw [prefixSum_cons_succ, ih c' hc']
      omega

theorem prefixSum_length (idx : List (List String)) :
    prefixSum idx idx.length = totalCount idx := by
  induction idx with
  | nil => rfl
  | cons l ls ih =>
    rw [List.length_cons, prefixSum_cons_succ, ih, totalCount_cons]

theorem toPos_lt (idx : List (List String)) (s : Cursor)
    (hv : validCursor idx s) : toPos idx s < totalCount idx := by
  rw [toPos]
  have h1 := prefixSum_succ_eq idx s.cat hv.1
  have h2 := prefixSum_le_totalCount idx (s.cat + 1)
  have h3 := hv.2
  omega

theorem toPos_lt_of_cat_lt (idx : List (List String)) (sa sb : Cursor)
    (ha : validCursor idx sa) (h : sa.cat < sb.cat) :
    toPos idx sa < toPos idx sb := by
  rw [toPos, toPos]
  have e1 := prefixSum_succ_eq idx sa.cat ha.1
  have e2 := prefixSum_mono idx (sa.cat + 1) sb.cat h
  have e3 := ha.2
  omega

theorem toPos_inj (idx : List (List String)) (s1 s2 : Cursor)
    (h1 : validCursor idx s1) (h2 : validCursor idx s2)
    (he : toPos idx s1 = toPos idx s2) : s1 = s2 := by
  have hcat : s1.cat = s2.cat := by
    rcases Nat.lt_trichotomy s1.cat s2.cat with h | h | h
    · exact absurd he (Nat.ne_of_lt (toPos_lt_of_cat_lt idx s1 s2 h1 h))
    · exact h
    · exact absurd he.symm (Nat.ne_of_lt (toPos_lt_of_cat_lt idx s2 s1 h2 h))
  have htpl : s1.tpl = s2.tpl := by
    rw [toPos, toPos, hcat] at he
    omega
  cases s1
  cases s2
  simp_all

/-- With direction `+1` and a valid cursor, `navigateWithinCategory` either
advances within the bucket or wraps to the next bucket's first template. -/
theorem navWithin_one (idx : List (List String)) (s : Cursor)
    (h0 : idx ≠ []) (hne : ∀ l ∈ idx, l ≠ []) (hv : validCursor idx s) :
    navigateWithinCategory idx 1 s =
      (if s.tpl + 1 < (getCatI idx (s.cat : Int)).length then
        (⟨s.cat, s.tpl + 1⟩ : Cursor)
      else ⟨(s.cat + 1) % idx.length, 0⟩) := by
  have hlen : idx.length ≠ 0 := by
    simpa using fun h => h0 (List.length_eq_zero.mp h)
  simp only [navigateWithinCategory, if_neg hlen]
  rw [if_neg (show ¬((s.tpl : Int) + 1 < 0) by omega)]
  by_cases hcase : s.tpl + 1 < (getCatI idx (s.cat : Int)).length
  · rw [if_neg (show ¬(((getCatI idx (s.cat : Int)).length : Int) ≤ (s.tpl : Int) + 1) by
      omega)]
    have hpos : 0 < (getCatI idx (s.cat : Int)).length := by omega
    rw [if_pos hpos, if_pos hcase]
    have : ((s.tpl : Int) + 1).toNat = s.tpl + 1 := by omega
    rw [this]
  · rw [if_pos (show ((getCatI idx (s.cat : Int)).length : Int) ≤ (s.tpl : Int) + 1 by
      omega)]
    have hmod : (s.cat + 1) % idx.length < idx.length :=
      Nat.mod_lt _ (Nat.pos_of_ne_zero hlen)
    rw [if_pos (getCatI_nonempty idx hne _ hmod), if_neg hcase]

theorem navWithin_one_step (idx : List (List String)) (s : Cursor)
    (h0 : idx ≠ []) (hne : ∀ l ∈ idx, l ≠ []) (hv : validCursor idx s) :
    validCursor idx (navigateWithinCategory idx 1 s) ∧
    toPos idx (navigateWithinCategory idx 1 s) =
      (toPos idx s + 1) % totalCount idx := by
  rw [navWithin_one idx s h0 hne hv]
  by_cases hcase : s.tpl + 1 < (getCatI idx (s.cat : Int)).length
  · rw [if_pos hcase]
    have hv' : validCursor idx ⟨s.cat, s.tpl + 1⟩ := ⟨hv.1, hcase⟩
    refine ⟨hv', ?_⟩
    have hb := toPos_lt idx _ hv'
    simp only [toPos] at hb ⊢
    rw [Nat.mod_eq_of_lt (by omega : prefixSum idx s.cat + s.tpl + 1 < totalCount idx)]
    omega
  · rw [if_neg hcase]
    have ht : s.tpl + 1 = (getCatI idx (s.cat : Int)).length := by
      have := hv.2
      omega
    have he := prefixSum_succ_eq idx s.cat hv.1
    by_cases hc : s.cat + 1 < idx.length
    · have hmod : (s.cat + 1) % idx.length = s.cat + 1 := Nat.mod_eq_of_lt hc
      rw [hmod]
      have hv' : validCursor idx ⟨s.cat + 1, 0⟩ := ⟨hc, getCatI_nonempty idx hne _ hc⟩
      refine ⟨hv', ?_⟩
      have hb := toPos_lt idx _ hv'
      simp only [toPos] at hb ⊢
      rw [Nat.mod_eq_of_lt (by omega : prefixSum idx s.cat + s.tpl + 1 < totalCount idx)]
      omega
    · have hc2 : s.cat + 1 = idx.length := by
        have := hv.1
        omega
      rw [hc2, Nat.mod_self]
      have hlenpos : 0 < idx.length := by
        have := hv.1
        omega
      have hv' : validCursor idx ⟨0, 0⟩ := ⟨hlenpos, getCatI_nonempty idx hne 0 hlenpos⟩
      refine ⟨hv', ?_⟩
      have hN : toPos idx s + 1 = totalCount idx := by
        rw [toPos, ← prefixSum_length idx, ← hc2]
        omega
      rw [hN, Nat.mod_self]
      simp only [toPos]
      rw [prefixSum_zero]

theorem navWithin_iterate (idx : List (List String)) (h0 : idx ≠ [])
    (hne : ∀ l ∈ idx, l ≠ []) (s : Cursor) (hv : validCursor idx s) :
    ∀ n : Nat,
      validCursor idx ((navigateWithinCategory idx 1)^[n] s) ∧
      toPos idx ((navigateWithinCategory idx 1)^[n] s) =
        (toPos idx s + n) % totalCount idx := by
  intro n
  induction n with
  | zero =>
    refine ⟨by simpa using hv, ?_⟩
    simp only [Function.iterate_zero, id_eq, Nat.add_zero]
    exact (Nat.mod_eq_of_lt (toPos_lt idx s hv)).symm
  | succ n ih =>
    rw [Function.iterate_succ_apply']
    obtain ⟨ihv, ihp⟩ := ih
    obtain ⟨v2, p2⟩ := navWithin_one_step idx _ h0 hne ihv
    refine ⟨v2, ?_⟩
    rw [p2, ihp, Nat.mod_add_mod, Nat.add_assoc]

/-- Claim C3: on a non-empty index with every category non-empty, applying
`navigateWithinCategory(+1)` once per template (the total template count)
returns the cursor to its original position. -/
theorem addToCategory_nonempty (acc : List (String × List String))
    (cat path : String) (h : ∀ kv ∈ acc, kv.2 ≠ []) :
    ∀ kv ∈ addToCategory acc cat path, kv.2 ≠ [] := by
  induction acc with
  | nil =>
    intro kv hkv
    rw [addToCategory] at hkv
    rcases List.mem_singleton.mp hkv with rfl
    simp
  | cons a rest ih =>
    obtain ⟨c, ps⟩ := a
    intro kv hkv
    rw [addToCategory] at hkv
    split_ifs at hkv with hc
    · rcases List.mem_cons.mp hkv with rfl | hkv
      · simp
      · exact h kv (List.mem_cons_of_mem _ hkv)
    · rcases List.mem_cons.mp hkv with rfl | hkv
      · exact h (c, ps) (List.mem_cons_self _ _)
      · exact ih (fun kv2 h2 => h kv2 (List.mem_cons_of_mem _ h2)) kv hkv

/-- Every category bucket the index builder produces holds at least one
template, so the non-empty-bucket hypothesis of the navigation claims holds
for every scanned listing. -/
theorem buildCategorized_nonempty (l : List (String × String)) :
    ∀ kv ∈ buildCategorized l, kv.2 ≠ [] := by
  rw [buildCategorized]
  suffices h : ∀ (acc : List (String × List String)), (∀ kv ∈ acc, kv.2 ≠ []) →
      ∀ kv ∈ l.foldl (fun acc pc => addToCategory acc pc.2 pc.1) acc, kv.2 ≠ [] by
    exact h [] (by simp)
  induction l with
  | nil => intro acc hacc; simpa using hacc
  | cons p rest ih =>
    intro acc hacc
    rw [List.foldl_cons]
    exact ih _ (addToCategory_nonempty acc p.2 p.1 hacc)

theorem claim_C3 (idx : List (List String)) (h0 : idx ≠ [])
    (hne : ∀ l ∈ idx, l ≠ []) (s : Cursor) (hv : validCursor idx s) :
    (navigateWithinCategory idx 1)^[totalCount idx] s = s := by
  obtain ⟨hv2, hp⟩ := navWithin_iterate idx h0 hne s hv (totalCount idx)
  refine toPos_inj idx _ _ hv2 hv ?_
  rw [hp, Nat.add_mod_right]
  exact Nat.mod_eq_of_lt (toPos_lt idx s hv)

theorem claim_C3_witness :
    (([["a"], ["b", "c"]] : List (List String)) ≠ [] ∧
      (∀ l ∈ ([["a"], ["b", "c"]] : List (List String)), l ≠ []) ∧
      validCursor [["a"], ["b", "c"]] ⟨1, 0⟩) ∧
    (navigateWithinCategory [["a"], ["b", "c"]] 1)^[totalCount [["a"], ["b", "c"]]]
      (⟨1, 0⟩ : Cursor) = ⟨1, 0⟩ :=
  ⟨⟨by decide, by decide, by decide⟩,
    claim_C3 [["a"], ["b", "c"]] (by decide) (by decide) ⟨1, 0⟩ (by decide)⟩

/-- Claim C9: with an empty index every navigation call is a no-op, and on
any index a valid cursor stays valid (addresses an existing template) after
any sequence of `navigateCategory` (either variant) and
`navigateWithinCategory` calls; moreover a valid cursor's addressed
category is never empty. -/
theorem claim_C9 (idx : List (List String)) :
    (idx = [] → ∀ (ops : List NavOp) (s : Cursor), applyOps idx ops s = s) ∧
    (∀ s : Cursor, validCursor idx s →
      ∀ ops : List NavOp, validCursor idx (applyOps idx ops s)) ∧
    (∀ s : Cursor, validCursor idx s → 0 < (getCatI idx (s.cat : Int)).length) := by
  refine ⟨?_, ?_, ?_⟩
  · rintro rfl ops s
    induction ops generalizing s with
    | nil => rfl
    | cons op ops ih =>
      rw [applyOps, List.foldl_cons, applyOp_nil]
      exact ih s
  · intro s hv ops
    induction ops generalizing s with
    | nil => exact hv
    | cons op ops ih =>
      rw [applyOps, List.foldl_cons]
      exact ih _ (applyOp_valid idx s op hv)
  · intro s hv
    exact Nat.pos_of_ne_zero (fun h => by have h2 := hv.2; omega)

theorem claim_C9_witness :
    validCursor [["a"], ["b", "c"]] ⟨0, 0⟩ ∧
    validCursor [["a"], ["b", "c"]]
      (applyOps [["a"], ["b", "c"]]
        [NavOp.within 1, NavOp.catOld (-1), NavOp.catNew 2, NavOp.within (-1)] ⟨0, 0⟩) :=
  ⟨by decide,
    (claim_C9 [["a"], ["b", "c"]]).2.1 ⟨0, 0⟩ (by decide)
      [NavOp.within 1, NavOp.catOld (-1), NavOp.catNew 2, NavOp.within (-1)]⟩

/-- Claim C2 (counterexample): in the picker scan, a file nested two levels
below the template root `T` at `T/A/B/f.md` is categorised `B` — the name of
its immediate parent — not `A`, the subfolder directly below the root that
contains it. -/
theorem claim_C2_counterexample :
    scanPicker "T" "T" ""
        [FsEntry.dir "A" [FsEntry.dir "B" [FsEntry.file "f.md"]]] =
      [("T/A/B/f.md", "B")] ∧ ("B" : String) ≠ "A" := by
  refine ⟨by simp [scanPicker], by decide⟩

/-- Claim C2 (amended): for every folder tree (with nonempty folder names),
each file's category is the empty string when it sits directly in the
template root; otherwise the picker-modal scan uses the name of the file's
immediate parent folder, and the settings-page scan uses the full relative
subpath below the root joined by `/`. -/
theorem claim_C2_amended (tplRoot : String) (children : List FsEntry)
    (hdn : dirNamesNonempty children = true) :
    scanPicker tplRoot tplRoot "" children =
      expectedPicker none tplRoot children ∧
    scanSettings tplRoot tplRoot "" children =
      expectedSettings [] tplRoot children := by
  constructor
  · exact scanPicker_expected tplRoot tplRoot "" children none (Or.inl ⟨rfl, rfl⟩)
  · exact scanSettings_expected tplRoot tplRoot "" children [] hdn
      (Or.inl ⟨rfl, rfl, rfl⟩)

theorem claim_C2_witness :
    dirNamesNonempty
        [FsEntry.dir "A" [FsEntry.dir "B" [FsEntry.file "f.md"]], FsEntry.file "g.md"] = true ∧
    (scanPicker "T" "T" ""
        [FsEntry.dir "A" [FsEntry.dir "B" [FsEntry.file "f.md"]], FsEntry.file "g.md"] =
      expectedPicker none "T"
        [FsEntry.dir "A" [FsEntry.dir "B" [FsEntry.file "f.md"]], FsEntry.file "g.md"] ∧
    scanSettings "T" "T" ""
        [FsEntry.dir "A" [FsEntry.dir "B" [FsEntry.file "f.md"]], FsEntry.file "g.md"] =
      expectedSettings [] "T"
        [FsEntry.dir "A" [FsEntry.dir "B" [FsEntry.file "f.md"]], FsEntry.file "g.md"]) :=
  ⟨by simp [dirNamesNonempty],
    claim_C2_amended "T" _ (by simp [dirNamesNonempty])⟩

/-- Claim C4: in main.ts, the navigation step indexes
`Object.keys(categorizedTemplates)` (scan-insertion order) while the build
and render steps sort with the `''`-first locale comparator; on a tree whose
first scanned template is categorised, the two orders differ for every
locale collator `lc`. -/
theorem claim_C4_divergence (lc : String → String → Int) :
    sortedCategories lc
        (scanPicker "T" "T" "" [FsEntry.dir "Work" [FsEntry.file "B.md"], FsEntry.file "A.md"]) =
      ["", "Work"] ∧
    navCategoriesOld
        (scanPicker "T" "T" "" [FsEntry.dir "Work" [FsEntry.file "B.md"], FsEntry.file "A.md"]) =
      ["Work", ""] ∧
    sortedCategories lc
        (scanPicker "T" "T" "" [FsEntry.dir "Work" [FsEntry.file "B.md"], FsEntry.file "A.md"]) ≠
      navCategoriesOld
        (scanPicker "T" "T" "" [FsEntry.dir "Work" [FsEntry.file "B.md"], FsEntry.file "A.md"]) := by
  have hscan : scanPicker "T" "T" ""
      [FsEntry.dir "Work" [FsEntry.file "B.md"], FsEntry.file "A.md"] =
      [("T/Work/B.md", "Work"), ("T/A.md", "")] := by
    simp [scanPicker]
  rw [hscan]
  refine ⟨?_, ?_, ?_⟩
  · simp [sortedCategories, buildCategorized, addToCategory, sortCmp, insertCmp, catCmp]
  · simp [navCategoriesOld, buildCategorized, addToCategory]
  · simp [sortedCategories, navCategoriesOld, buildCategorized, addToCategory,
      sortCmp, insertCmp, catCmp]

/-- Claim C1 (evaluation at the failing instant): part_000 stamps flagged
front-matter fields with the local calendar date and keeps unflagged fields,
while main.ts stamps the UTC date, which differs at `c1Now`. -/
theorem claim_C1_bug_eval :
    localToday c1Now = "2024-03-16" ∧
    utcToday c1Now = "2024-03-15" ∧
    getEntry (createFileFromTemplateNew
        [("T", VEntry.folder), ("T/t.md", VEntry.file ⟨[("due", "TBD"), ("title", "X")], "body"⟩),
          ("Inbox", VEntry.folder)]
        [("T/t.md", ⟨"t", some "Inbox", some [("due", true)], none⟩)]
        c1Now "T/t.md").1 "Inbox/未命名.md" =
      some (.file ⟨[("due", "2024-03-16"), ("title", "X")], "body"⟩) ∧
    getEntry (createFileFromTemplateOld
        [("T", VEntry.folder), ("T/t.md", VEntry.file ⟨[("due", "TBD"), ("title", "X")], "body"⟩),
          ("Inbox", VEntry.folder)]
        [("T/t.md", ⟨"t", some "Inbox", some [("due", true)], none⟩)]
        c1Now "T/t.md").1 "Inbox/未命名.md" =
      some (.file ⟨[("due", "2024-03-15"), ("title", "X")], "body"⟩) ∧
    ("2024-03-15" : String) ≠ localToday c1Now := by
  refine ⟨by decide, by decide, by decide, by decide, by decide⟩

theorem getEntry_cons (kv : String × VEntry) (rest : Vault) (p : String) :
    getEntry (kv :: rest) p =
      if kv.1 == p then some kv.2 else getEntry rest p := by
  by_cases hq : (kv.1 == p) = true
  · simp [getEntry, List.find?_cons, hq]
  · simp [getEntry, List.find?_cons, hq]

theorem getEntry_append_of_none (v l2 : Vault) (p : String)
    (h : getEntry v p = none) : getEntry (v ++ l2) p = getEntry l2 p := by
  induction v with
  | nil => rfl
  | cons kv rest ih =>
    rw [getEntry_cons] at h
    rw [List.cons_append, getEntry_cons]
    by_cases hq : (kv.1 == p) = true
    · rw [if_pos hq] at h
      exact absurd h (by simp)
    · rw [if_neg hq] at h
      rw [if_neg hq]
      exact ih h

theorem getEntry_append_of_some (v l2 : Vault) (p : String) (e : VEntry)
    (h : getEntry v p = some e) : getEntry (v ++ l2) p = some e := by
  induction v with
  | nil => exact absurd h (by simp [getEntry])
  | cons kv rest ih =>
    rw [getEntry_cons] at h
    rw [List.cons_append, getEntry_cons]
    by_cases hq : (kv.1 == p) = true
    · rw [if_pos hq] at h
      rw [if_pos hq]
      exact h
    · rw [if_neg hq] at h
      rw [if_neg hq]
      exact ih h

/-- Claim C7: with the template file and its configuration record present
but no target folder configured (absent or empty), both variants abort with
the configuration-missing notice and leave the vault untouched. -/
theorem claim_C7 (vault : Vault) (settings : Settings) (now : JsDate)
    (templatePath : String) (content : Content) (cfg : TemplateConfig)
    (hT : getEntry vault templatePath = some (.file content))
    (hC : getConfig settings templatePath = some cfg)
    (hF : cfg.targetFolder = none ∨ cfg.targetFolder = some "") :
    createFileFromTemplateNew vault settings now templatePath =
      (vault, .errTargetUnset) ∧
    createFileFromTemplateOld vault settings now templatePath =
      (vault, .errTargetUnset) := by
  have hgetD : cfg.targetFolder.getD "" = "" := by
    rcases hF with h | h <;> simp [h]
  constructor
  · simp [createFileFromTemplateNew, hT, hC, hgetD]
  · simp [createFileFromTemplateOld, hT, hC, hgetD]

theorem claim_C7_witness :
    (getEntry [("T/t.md", VEntry.file ⟨[], "b"⟩)] "T/t.md" =
        some (.file ⟨[], "b"⟩) ∧
      getConfig [("T/t.md", (⟨"t", none, none, none⟩ : TemplateConfig))] "T/t.md" =
        some ⟨"t", none, none, none⟩) ∧
    createFileFromTemplateNew [("T/t.md", VEntry.file ⟨[], "b"⟩)]
        [("T/t.md", ⟨"t", none, none, none⟩)] c1Now "T/t.md" =
      ([("T/t.md", VEntry.file ⟨[], "b"⟩)], .errTargetUnset) ∧
    createFileFromTemplateOld [("T/t.md", VEntry.file ⟨[], "b"⟩)]
        [("T/t.md", ⟨"t", none, none, none⟩)] c1Now "T/t.md" =
      ([("T/t.md", VEntry.file ⟨[], "b"⟩)], .errTargetUnset) :=
  ⟨⟨by decide, by decide⟩,
    claim_C7 _ _ c1Now "T/t.md" ⟨[], "b"⟩ ⟨"t", none, none, none⟩
      (by decide) (by decide) (Or.inl rfl)⟩

/-- Claim C8: instantiating a template whose configuration has a target
folder but no title format and no date fields creates exactly one new file,
`targetFolder/未命名.md`, with content identical to the template's, and every
other path of the vault is untouched (in both variants). -/
theorem claim_C8 (vault : Vault) (settings : Settings) (now : JsDate)
    (templatePath t : String) (content : Content) (cfg : TemplateConfig)
    (hT : getEntry vault templatePath = some (.file content))
    (hC : getConfig settings templatePath = some cfg)
    (ht : cfg.targetFolder = some t) (htne : t ≠ "")
    (hTF : cfg.titleFormat = none)
    (hDF : cfg.dateFields = none ∨ cfg.dateFields = some [])
    (hfolder : getEntry vault t = some .folder)
    (hfree : getEntry vault (t ++ "/" ++ "未命名.md") = none) :
    createFileFromTemplateNew vault settings now templatePath =
      (vault ++ [(t ++ "/" ++ "未命名.md", .file content)],
        .ok (t ++ "/" ++ "未命名.md")) ∧
    createFileFromTemplateOld vault settings now templatePath =
      (vault ++ [(t ++ "/" ++ "未命名.md", .file content)],
        .ok (t ++ "/" ++ "未命名.md")) ∧
    getEntry (vault ++ [(t ++ "/" ++ "未命名.md", .file content)])
        (t ++ "/" ++ "未命名.md") = some (.file content) ∧
    ∀ p, p ≠ t ++ "/" ++ "未命名.md" →
      getEntry (vault ++ [(t ++ "/" ++ "未命名.md", .file content)]) p =
        getEntry vault p := by
  have hgetD : cfg.targetFolder.getD "" = t := by rw [ht]; rfl
  have hdf : cfg.dateFields.getD [] = [] := by
    rcases hDF with h | h <;> simp [h]
  refine ⟨?_, ?_, ?_, ?_⟩
  · simp [createFileFromTemplateNew, hT, hC, hgetD, htne, hTF, hfolder, hfree, hdf]
  · simp [createFileFromTemplateOld, hT, hC, hgetD, htne, hfolder, hfree, hdf]
  · rw [getEntry_append_of_none _ _ _ hfree, getEntry_cons]
    simp
  · intro p hp
    cases he : getEntry vault p with
    | some e => exact getEntry_append_of_some _ _ _ _ he
    | none =>
      rw [getEntry_append_of_none _ _ _ he, getEntry_cons]
      rw [if_neg (by simpa using fun h => hp h.symm)]
      rfl

theorem claim_C8_witness :
    (getEntry [("T/t.md", VEntry.file ⟨[("k", "v")], "b"⟩), ("Inbox", VEntry.folder)]
        "T/t.md" = some (.file ⟨[("k", "v")], "b"⟩) ∧
      getEntry [("T/t.md", VEntry.file ⟨[("k", "v")], "b"⟩), ("Inbox", VEntry.folder)]
        "Inbox" = some .folder) ∧
    createFileFromTemplateNew
        [("T/t.md", VEntry.file ⟨[("k", "v")], "b"⟩), ("Inbox", VEntry.folder)]
        [("T/t.md", ⟨"t", some "Inbox", none, none⟩)] c1Now "T/t.md" =
      ([("T/t.md", VEntry.file ⟨[("k", "v")], "b"⟩), ("Inbox", VEntry.folder),
          ("Inbox" ++ "/" ++ "未命名.md", VEntry.file ⟨[("k", "v")], "b"⟩)],
        .ok ("Inbox" ++ "/" ++ "未命名.md")) := by
  refine ⟨⟨by decide, by decide⟩, ?_⟩
  have h := claim_C8
    [("T/t.md", VEntry.file ⟨[("k", "v")], "b"⟩), ("Inbox", VEntry.folder)]
    [("T/t.md", ⟨"t", some "Inbox", none, none⟩)] c1Now "T/t.md" "Inbox"
    ⟨[("k", "v")], "b"⟩ ⟨"t", some "Inbox", none, none⟩
    (by decide) (by decide) rfl (by decide) rfl (Or.inl rfl) (by decide) (by decide)
  exact h.1

/-!
## Title Formatter properties
-/

theorem replaceAll_pat_self (pat rep : List Char) (hne : pat ≠ []) :
    replaceAll pat rep pat = rep := by
  have h := replaceAll_append_pat pat rep [] hne
  simpa [replaceAll_nil] using h

theorem replaceAll_headBrace_append (pat rep xs ys : List Char)
    (hp : pat.head? = some '{') (hx : braceFree xs = true) :
    replaceAll pat rep (xs ++ ys) = xs ++ replaceAll pat rep ys := by
  cases pat with
  | nil => simp at hp
  | cons c cs =>
    have hc : c = '{' := by simpa using hp
    subst hc
    exact replaceAll_braceFree_append cs rep xs ys hx

theorem replaceAll_headBrace (pat rep xs : List Char)
    (hp : pat.head? = some '{') (hx : braceFree xs = true) :
    replaceAll pat rep xs = xs := by
  have h := replaceAll_headBrace_append pat rep xs [] hp hx
  simpa [replaceAll_nil] using h

theorem braceFree_dash : braceFree ['-'] = true := by decide

theorem braceFree_monthStr (d : JsDate) : braceFree (monthStr d) = true :=
  braceFree_padTo _ _ (braceFree_natDigits _)

theorem braceFree_dayStr (d : JsDate) : braceFree (dayStr d) = true :=
  braceFree_padTo _ _ (braceFree_natDigits _)

theorem braceFree_weekStr (d : JsDate) : braceFree (weekStr d) = true :=
  braceFree_padTo _ _ (braceFree_intDigits _)

theorem braceFree_dateStr (d : JsDate) : braceFree (dateStr d) = true := by
  rw [dateStr]
  simp only [braceFree_append, braceFree_natDigits, braceFree_dash,
    braceFree_monthStr, braceFree_dayStr, Bool.and_self, Bool.and_true, Bool.true_and]

theorem braceFree_weekdayStr (d : JsDate) : braceFree (weekdayStr d) = true := by
  rw [weekdayStr]
  have hv := d.weekday.isLt
  revert hv
  generalize (d.weekday : Fin 7).val = v
  intro hv
  interval_cases v <;> decide

/-- `formatTitle` on the bare `\x7b\x7bdate\x7d\x7d` token yields the
`${year}-${month}-${day}` string. -/
theorem formatTitle_date (now : JsDate) :
    formatTitle now ("\x7b\x7bdate\x7d\x7d".toList) = dateStr now := by
  simp only [formatTitle]
  rw [if_neg (by decide)]
  rw [show ("\x7b\x7bdate\x7d\x7d".toList : List Char) = datePat from rfl]
  rw [replaceAll_pat_self datePat _ (by decide)]
  rw [replaceAll_headBrace yearPat _ _ (by decide) (braceFree_dateStr now)]
  rw [replaceAll_headBrace quarterPat _ _ (by decide) (braceFree_dateStr now)]
  rw [replaceAll_headBrace monthPat _ _ (by decide) (braceFree_dateStr now)]
  rw [replaceAll_headBrace weekPat _ _ (by decide) (braceFree_dateStr now)]
  rw [replaceAll_headBrace weekdayPat _ _ (by decide) (braceFree_dateStr now)]
  rw [replaceAll_headBrace dayPat _ _ (by decide) (braceFree_dateStr now)]

/-- `formatTitle` on `\x7b\x7byear\x7d\x7d-\x7b\x7bmonth\x7d\x7d-\x7b\x7bday\x7d\x7d`
substitutes the three tokens independently. -/
theorem formatTitle_ymd (now : JsDate) :
    formatTitle now
        ("\x7b\x7byear\x7d\x7d-\x7b\x7bmonth\x7d\x7d-\x7b\x7bday\x7d\x7d".toList) =
      natDigits now.year ++ (['-'] ++ (monthStr now ++ (['-'] ++ dayStr now))) := by
  simp only [formatTitle]
  rw [if_neg (by decide)]
  rw [replaceAll_of_not_occursIn datePat (dateStr now) _ (by decide)]
  rw [show ("\x7b\x7byear\x7d\x7d-\x7b\x7bmonth\x7d\x7d-\x7b\x7bday\x7d\x7d".toList :
      List Char) = yearPat ++ "-\x7b\x7bmonth\x7d\x7d-\x7b\x7bday\x7d\x7d".toList from
      by decide]
  rw [replaceAll_append_pat yearPat _ _ (by decide)]
  rw [replaceAll_of_not_occursIn yearPat _ _ (by decide)]
  rw [replaceAll_headBrace_append quarterPat _ _ _ (by decide) (braceFree_natDigits _)]
  rw [replaceAll_of_not_occursIn quarterPat _ _ (by decide)]
  rw [show ("-\x7b\x7bmonth\x7d\x7d-\x7b\x7bday\x7d\x7d".toList : List Char) =
      ['-'] ++ (monthPat ++ "-\x7b\x7bday\x7d\x7d".toList) from by decide]
  rw [replaceAll_headBrace_append monthPat _ _ _ (by decide) (braceFree_natDigits _)]
  rw [replaceAll_headBrace_append monthPat _ _ _ (by decide) braceFree_dash]
  rw [replaceAll_append_pat monthPat _ _ (by decide)]
  rw [replaceAll_of_not_occursIn monthPat _ _ (by decide)]
  rw [replaceAll_headBrace_append weekPat _ _ _ (by decide) (braceFree_natDigits _)]
  rw [replaceAll_headBrace_append weekPat _ _ _ (by decide) braceFree_dash]
  rw [replaceAll_headBrace_append weekPat _ _ _ (by decide) (braceFree_monthStr now)]
  rw [replaceAll_of_not_occursIn weekPat _ _ (by decide)]
  rw [replaceAll_headBrace_append weekdayPat _ _ _ (by decide) (braceFree_natDigits _)]
  rw [replaceAll_headBrace_append weekdayPat _ _ _ (by decide) braceFree_dash]
  rw [replaceAll_headBrace_append weekdayPat _ _ _ (by decide) (braceFree_monthStr now)]
  rw [replaceAll_of_not_occursIn weekdayPat _ _ (by decide)]
  rw [replaceAll_headBrace_append dayPat _ _ _ (by decide) (braceFree_natDigits _)]
  rw [replaceAll_headBrace_append dayPat _ _ _ (by decide) braceFree_dash]
  rw [replaceAll_headBrace_append dayPat _ _ _ (by decide) (braceFree_monthStr now)]
  rw [show ("-\x7b\x7bday\x7d\x7d".toList : List Char) = ['-'] ++ dayPat from by decide]
  rw [replaceAll_headBrace_append dayPat _ _ _ (by decide) braceFree_dash]
  rw [replaceAll_pat_self dayPat _ (by decide)]

/-- Claim C6: `formatTitle` returns empty on empty input, passes unknown
tokens through unchanged, and `\x7b\x7byear\x7d\x7d-\x7b\x7bmonth\x7d\x7d-\x7b\x7bday\x7d\x7d`
renders identically to `\x7b\x7bdate\x7d\x7d` for the same instant. -/
theorem claim_C6 (now : JsDate) :
    formatTitle now [] = [] ∧
    formatTitle now ("\x7b\x7bunknown\x7d\x7d".toList) = "\x7b\x7bunknown\x7d\x7d".toList ∧
    formatTitle now
        ("\x7b\x7byear\x7d\x7d-\x7b\x7bmonth\x7d\x7d-\x7b\x7bday\x7d\x7d".toList) =
      formatTitle now ("\x7b\x7bdate\x7d\x7d".toList) := by
  refine ⟨rfl, ?_, ?_⟩
  · simp only [formatTitle]
    rw [if_neg (by decide)]
    rw [replaceAll_of_not_occursIn datePat _ _ (by decide)]
    rw [replaceAll_of_not_occursIn yearPat _ _ (by decide)]
    rw [replaceAll_of_not_occursIn quarterPat _ _ (by decide)]
    rw [replaceAll_of_not_occursIn monthPat _ _ (by decide)]
    rw [replaceAll_of_not_occursIn weekPat _ _ (by decide)]
    rw [replaceAll_of_not_occursIn weekdayPat _ _ (by decide)]
    rw [replaceAll_of_not_occursIn dayPat _ _ (by decide)]
  · rw [formatTitle_ymd, formatTitle_date, dateStr]
    simp [List.append_assoc]

/-- Claim C5 (counterexample): two instants of the same local calendar day
(2024-01-06, January 1 a Monday) get different week numbers — at midnight
week 1, at noon week 2 — so no formula in `dayOfYear` and the January-1
weekday alone matches the code. -/
theorem claim_C5_counterexample :
    c5Midnight.dayOfYear = c5Noon.dayOfYear ∧
    c5Midnight.jan1Weekday = c5Noon.jan1Weekday ∧
    weekNum c5Midnight = 1 ∧ weekNum c5Noon = 2 := by
  refine ⟨rfl, rfl, ?_, ?_⟩ <;> (rw [weekNum_eq_natDiv]; decide)

/-- Claim C5 (amended): at local midnight the computed week number equals
`ceil((dayOfYear + weekday(Jan 1)) / 7)`, and `\x7b\x7bweek\x7d\x7d` always
renders as the week number zero-padded to two digits; at later times of day
the fractional elapsed time enters the ceiling and can push the week one
higher. -/
theorem claim_C5_amended (d : JsDate) (h0 : d.msOfDay = 0)
    (h1 : 1 ≤ d.dayOfYear) :
    weekNum d = specWeekFormula d ∧
    formatTitle d ("\x7b\x7bweek\x7d\x7d".toList) = padTo 2 (intDigits (weekNum d)) := by
  constructor
  · rw [weekNum, specWeekFormula, pastDaysOfYear, JsDate.pastMs, h0]
    congr 1
    push_cast [Nat.cast_sub h1]
    field_simp
    ring
  · simp only [formatTitle]
    rw [if_neg (by decide)]
    rw [replaceAll_of_not_occursIn datePat _ _ (by decide)]
    rw [replaceAll_of_not_occursIn yearPat _ _ (by decide)]
    rw [replaceAll_of_not_occursIn quarterPat _ _ (by decide)]
    rw [replaceAll_of_not_occursIn monthPat _ _ (by decide)]
    rw [show ("\x7b\x7bweek\x7d\x7d".toList : List Char) = weekPat from rfl]
    rw [replaceAll_pat_self weekPat _ (by decide)]
    rw [replaceAll_headBrace weekdayPat _ _ (by decide) (braceFree_weekStr d)]
    rw [replaceAll_headBrace dayPat _ _ (by decide) (braceFree_weekStr d)]
    rfl

theorem claim_C5_witness :
    (c5Midnight.msOfDay = 0 ∧ 1 ≤ c5Midnight.dayOfYear) ∧
    (weekNum c5Midnight = specWeekFormula c5Midnight ∧
      formatTitle c5Midnight ("\x7b\x7bweek\x7d\x7d".toList) =
        padTo 2 (intDigits (weekNum c5Midnight))) :=
  ⟨⟨rfl, by decide⟩, claim_C5_amended c5Midnight rfl (by decide)⟩

theorem find?_of_mem_nodup (l : List (String × Bool)) (kv : String × Bool)
    (hnd : (l.map Prod.fst).Nodup) (hmem : kv ∈ l) :
    l.find? (fun e => e.1 == kv.1) = some kv := by
  induction l with
  | nil => simp at hmem
  | cons a rest ih =>
    rw [List.map_cons, List.nodup_cons] at hnd
    rcases List.mem_cons.mp hmem with h | h
    · subst h
      rw [List.find?_cons_of_pos _ (by simp)]
    · have hne : (a.1 == kv.1) = false := by
        rw [beq_eq_false_iff_ne]
        intro he
        exact hnd.1 (he ▸ List.mem_map_of_mem Prod.fst h)
      rw [List.find?_cons_of_neg _ (by simp [hne])]
      exact ih hnd.2 h

/-- Claim C10: after the save handler runs, every persisted entry's value is
`true`, and a key is persisted exactly when its merged (toggled-over-stored)
value is `true` — the stored record is exactly the set of enabled fields. -/
theorem claim_C10 (current toggled : List (String × Bool))
    (hc : (current.map Prod.fst).Nodup) (ht : (toggled.map Prod.fst).Nodup) :
    (∀ kv ∈ saveDateFields current toggled, kv.2 = true) ∧
    (∀ k : String,
      (∃ v, (k, v) ∈ saveDateFields current toggled) ↔
        mergedValue current toggled k = some true) := by
  constructor
  · intro kv hkv
    exact (List.mem_filter.mp hkv).2
  · intro k
    constructor
    · rintro ⟨v, hv⟩
      have hfil := List.mem_filter.mp hv
      have hval : v = true := hfil.2
      subst hval
      rcases List.mem_append.mp hfil.1 with hmm | hmm
      · rcases List.mem_map.mp hmm with ⟨kv0, hkv0, heq⟩
        have hk : kv0.1 = k := congrArg Prod.fst heq
        have hv2 := congrArg Prod.snd heq
        simp only at hv2
        rw [mergedValue, ← hk]
        cases hfind : toggled.find? (fun e => e.1 == kv0.1) with
        | some kvt =>
          rw [hfind] at hv2
          simp at hv2
          simp [hv2]
        | none =>
          rw [hfind] at hv2
          simp at hv2
          simp [find?_of_mem_nodup current kv0 hc hkv0, hv2]
      · have hfl := List.mem_filter.mp hmm
        have hfind := find?_of_mem_nodup toggled (k, true) ht hfl.1
        have hfind2 : toggled.find? (fun e => e.1 == k) = some (k, true) := by
          simpa using hfind
        rw [mergedValue, hfind2]
    · intro hmv
      rw [mergedValue] at hmv
      cases hfind : toggled.find? (fun e => e.1 == k) with
      | some kvt =>
        rw [hfind] at hmv
        have hkt : kvt.2 = true := by simpa using hmv
        have hcond := List.find?_some hfind
        have hkey : kvt.1 = k := by simpa using hcond
        have hmemt : kvt ∈ toggled := List.mem_of_find?_eq_some hfind
        by_cases hany : current.any (fun e => e.1 == k) = true
        · rcases List.any_eq_true.mp hany with ⟨kv0, hkv0, hpk⟩
          have hk0 : kv0.1 = k := by simpa using hpk
          refine ⟨true, List.mem_filter.mpr ⟨?_, rfl⟩⟩
          apply List.mem_append.mpr
          left
          have hmem2 := List.mem_map_of_mem
            (fun kv => (kv.1,
              ((toggled.find? (fun e => e.1 == kv.1)).map Prod.snd).getD kv.2)) hkv0
          simp only at hmem2
          rw [hk0] at hmem2
          rw [hfind] at hmem2
          simpa [hkt] using hmem2
        · refine ⟨true, List.mem_filter.mpr ⟨?_, rfl⟩⟩
          apply List.mem_append.mpr
          right
          rw [← hkey, ← hkt]
          apply List.mem_filter.mpr
          refine ⟨hmemt, ?_⟩
          rw [hkey]
          simp [Bool.eq_false_iff.mpr, hany]
      | none =>
        rw [hfind] at hmv
        cases hfc : current.find? (fun e => e.1 == k) with
        | none => rw [hfc] at hmv; simp at hmv
        | some kv0 =>
          rw [hfc] at hmv
          have hk0v : kv0.2 = true := by simpa using hmv
          have hk0 : kv0.1 = k := by simpa using List.find?_some hfc
          have hmem0 : kv0 ∈ current := List.mem_of_find?_eq_some hfc
          refine ⟨true, List.mem_filter.mpr ⟨?_, rfl⟩⟩
          apply List.mem_append.mpr
          left
          have hmem2 := List.mem_map_of_mem
            (fun kv => (kv.1,
              ((toggled.find? (fun e => e.1 == kv.1)).map Prod.snd).getD kv.2)) hmem0
          simp only at hmem2
          rw [hk0, hfind] at hmem2
          simpa [hk0v] using hmem2

theorem claim_C10_witness :
    (((([("a", true), ("b", false)] : List (String × Bool)).map Prod.fst).Nodup ∧
        (([("b", true), ("c", false)] : List (String × Bool)).map Prod.fst).Nodup) ∧
      saveDateFields [("a", true), ("b", false)] [("b", true), ("c", false)] =
        [("a", true), ("b", true)]) ∧
    ((∀ kv ∈ saveDateFields [("a", true), ("b", false)] [("b", true), ("c", false)],
        kv.2 = true) ∧
      (∀ k : String,
        (∃ v, (k, v) ∈ saveDateFields [("a", true), ("b", false)] [("b", true), ("c", false)]) ↔
          mergedValue [("a", true), ("b", false)] [("b", true), ("c", false)] k = some true)) :=
  ⟨⟨⟨by decide, by decide⟩, by decide⟩,
    claim_C10 [("a", true), ("b", false)] [("b", true), ("c", false)]
      (by decide) (by decide)⟩

end TinyTemplates
